import Mathlib

/-!
Shallow embedding of the photo-gallery application `app.py` (repository `tu`).

The application is a Flask photo gallery: an image ingestion pipeline
(extension check, PIL open/verify/convert, dual-resolution resize via `_save`,
unique naming via `_unique`, SQLite insert) plus a date-grouped listing
(`index`), login endpoints, and update/delete admin handlers.

External collaborators (PIL decoding, the filesystem, SQLite, the clock,
`uuid4`) are modelled as explicit inputs: a `Stream` carries the outcome of
PIL's two decode passes, an `Env` carries the random hex names, the
success/failure of each I/O call, clock dates and zoneinfo availability, and
a `World` carries the database rows and the two artifact directories.
-/

namespace Tu

/-! ## Extension allow-list (`ALLOWED_EXTS`, `allowed_file`, os.path.splitext) -/

/-- `ALLOWED_EXTS = {'.jpg', '.jpeg', '.png', '.gif', '.webp'}` from `app.py`. -/
def ALLOWED_EXTS : List String := [".jpg", ".jpeg", ".png", ".gif", ".webp"]

/-- Index of the last occurrence of `c` in the list, if any. -/
def lastIdxOf (c : Char) : List Char → Option Nat
  | [] => none
  | a :: as =>
    match lastIdxOf c as with
    | some i => some (i + 1)
    | none => if a = c then some 0 else none

/-- The extension part of `os.path.splitext`: the suffix starting at the last
dot, provided that dot lies in the basename (after the last `/`) and at least
one basename character before it is not a dot (CPython's `genericpath._splitext`
rule, so `".bashrc"` has no extension). -/
def splitextExt (s : String) : String :=
  let cs := s.toList
  let start := match lastIdxOf '/' cs with
    | some i => i + 1
    | none => 0
  match lastIdxOf '.' cs with
  | none => ""
  | some d =>
    if d < start then ""
    else if ((cs.drop start).take (d - start)).all (fun c => c = '.') then ""
    else ((cs.drop d).asString)

/-- `str.lower()` character-wise (`Char.toLower` lowercases the ASCII range,
which covers the extension strings compared here). -/
def strLower (s : String) : String :=
  String.mk (s.toList.map Char.toLower)

/-- `str.strip()`: remove leading and trailing whitespace. -/
def strTrim (s : String) : String :=
  String.mk
    (((s.toList.dropWhile Char.isWhitespace).reverse.dropWhile Char.isWhitespace).reverse)

/-- `allowed_file(filename)`: extension (lower-cased) is in the allow-list. -/
def allowed_file (filename : String) : Bool :=
  ALLOWED_EXTS.contains (strLower (splitextExt filename))

/-! ## PIL model: `_open_validate`, `Image.convert('RGB')` -/

/-- PIL color modes relevant to the pipeline.  `RGB` is the canonical
3-channel no-alpha mode; `P` is palette, `L` grayscale, `RGBA` has alpha. -/
inductive PMode
  | RGB | RGBA | P | L | CMYK | other
deriving DecidableEq, Repr

/-- Abstraction of a decoded `PIL.Image.Image`: its mode and pixel size. -/
structure PILImage where
  mode : PMode
  width : Nat
  height : Nat
deriving DecidableEq, Repr

/-- `img.convert('RGB')`: same pixels and size, canonical 3-channel mode. -/
def convertRGB (img : PILImage) : PILImage :=
  { img with mode := PMode.RGB }

/-- Abstraction of an uploaded byte stream, recording the outcome of PIL's two
passes in `_open_validate`: `openImg` is the image `Image.open` yields (`none`
when the bytes are not a decodable image) and `verifyOk` is whether
`img.verify()` finds the file structurally sound. -/
structure Stream where
  openImg : Option PILImage
  verifyOk : Bool
deriving DecidableEq, Repr

/-- The error classes raised inside the upload `try` block: the
`ValueError('不是有效的图片文件或已损坏')` from `_open_validate`, and OS/DB
errors from the I/O calls. -/
inductive UploadErr
  | invalidImage
  | ioError
deriving DecidableEq, Repr

/-- `_open_validate(stream)`: `Image.open` then `verify()` (any exception is
re-raised as the invalid-image `ValueError`), then re-open and
`convert('RGB')`. -/
def _open_validate (s : Stream) : Except UploadErr PILImage :=
  match s.openImg with
  | none => Except.error UploadErr.invalidImage
  | some img =>
    if s.verifyOk then Except.ok (convertRGB img) else Except.error UploadErr.invalidImage

/-! ## Resizer (`_save`): dimension arithmetic

`_save` computes `scale = min(max_side / max(w, h), 1.0)` and, when
`scale < 1.0`, resizes to `(int(w * scale), int(h * scale))`; otherwise the
image keeps its dimensions.  The arithmetic is modelled exactly over `ℚ`
(`int` of a non-negative value is the floor). -/

/-- `scale = min(max_side / max(w, h), 1.0)`. -/
def saveScale (w h maxSide : Nat) : ℚ :=
  min ((maxSide : ℚ) / (max w h : Nat)) 1

/-- Dimensions of the artifact written by `_save img max_side`: resized to the
floors when `scale < 1.0`, unchanged otherwise. -/
def saveDims (w h maxSide : Nat) : Nat × Nat :=
  let scale := saveScale w h maxSide
  if scale < 1 then
    ((Int.floor ((w : ℚ) * scale)).toNat, (Int.floor ((h : ℚ) * scale)).toNat)
  else (w, h)

/-! ## Naming (`_unique`), dates (`tokyo_today_str`), field defaulting -/

/-- `_unique(ext) = uuid4().hex + ext`; the random hex is an explicit input. -/
def _unique (hex : String) (ext : String) : String := hex ++ ext

/-- A `datetime.date`: calendar day. -/
structure PyDate where
  year : Nat
  month : Nat
  day : Nat
deriving DecidableEq, Repr

/-- Zero-padding of `f"{n:0{width}d}"` for non-negative `n`. -/
def padNum (width n : Nat) : String :=
  String.mk (List.replicate (width - (toString n).length) '0') ++ toString n

/-- `date.isoformat()`: `YYYY-MM-DD`. -/
def PyDate.isoformat (d : PyDate) : String :=
  padNum 4 d.year ++ "-" ++ padNum 2 d.month ++ "-" ++ padNum 2 d.day

/-- `tokyo_today_str()`: today's date in `Asia/Tokyo` when zoneinfo data is
available, else today's UTC date.  The clock readings are explicit inputs. -/
def tokyo_today_str (zoneAvail : Bool) (tokyoNow utcNow : PyDate) : String :=
  (if zoneAvail then tokyoNow else utcNow).isoformat

/-- The pattern `(request.form.get(k) or '').strip() or dflt` shared by the
upload and update handlers: a missing field counts as `''`, the value is
stripped of surrounding whitespace, and an empty result falls back to the
default. -/
def coalesce (v : Option String) (dflt : String) : String :=
  let s := strTrim (v.getD "")
  if s = "" then dflt else s

/-! ## The photos table and the world state -/

/-- A row of the `photos` table. -/
structure PhotoRecord where
  id : Nat
  filename_web : String
  filename_thumb : String
  title : String
  date : String
  uploaded_at : String
deriving DecidableEq, Repr

/-- The mutable state the handlers touch: the `photos` table (in insertion
order), the two artifact directories (as lists of filenames), and SQLite's
next `AUTOINCREMENT` id. -/
structure World where
  db : List PhotoRecord
  webFiles : List String
  thumbFiles : List String
  nextId : Nat
deriving DecidableEq, Repr

/-! ## SQLite text comparison

`ORDER BY date DESC` compares `TEXT` values with the BINARY collation,
i.e. bytewise, which on UTF-8 agrees with codepoint-lexicographic order. -/

/-- Bytewise (codepoint-lexicographic) strict order on character lists. -/
def charsLtb : List Char → List Char → Bool
  | [], [] => false
  | [], _ :: _ => true
  | _ :: _, [] => false
  | a :: as, b :: bs =>
    if a.val < b.val then true
    else if b.val < a.val then false
    else charsLtb as bs

/-- SQLite BINARY-collation strict order on `TEXT` values. -/
def textLtb (a b : String) : Bool := charsLtb a.toList b.toList

/-- The `ORDER BY date DESC, id DESC` relation between consecutive rows:
the later row has a smaller date, or the same date and a smaller id. -/
def rowOrder (a b : PhotoRecord) : Prop :=
  textLtb b.date a.date = true ∨ (b.date = a.date ∧ b.id < a.id)

instance (a b : PhotoRecord) : Decidable (rowOrder a b) :=
  inferInstanceAs (Decidable (textLtb b.date a.date = true ∨ (b.date = a.date ∧ b.id < a.id)))

/-! ## Gallery grouping (`index`) -/

/-- The rows are in the order produced by `ORDER BY date DESC, id DESC`:
every consecutive pair satisfies `rowOrder`. -/
def sortedRows : List PhotoRecord → Prop
  | [] => True
  | [_] => True
  | a :: b :: rs => rowOrder a b ∧ sortedRows (b :: rs)

instance sortedRowsDec : (l : List PhotoRecord) → Decidable (sortedRows l)
  | [] => isTrue trivial
  | [_] => isTrue trivial
  | a :: b :: rs =>
    have : Decidable (sortedRows (b :: rs)) := sortedRowsDec (b :: rs)
    inferInstanceAs (Decidable (rowOrder a b ∧ sortedRows (b :: rs)))

/-- One display group of the gallery: `{'date': ..., 'items': [...]}`. -/
structure DateGroup where
  date : String
  items : List PhotoRecord
deriving DecidableEq, Repr

/-- `groups[-1]['items'].append(r)`: append `r` to the items of the last
group. -/
def appendToLast (r : PhotoRecord) : List DateGroup → List DateGroup
  | [] => []
  | [g] => [⟨g.date, g.items ++ [r]⟩]
  | g :: gs => g :: appendToLast r gs

/-- One iteration of the grouping loop in `index`: start a new group when the
row's date differs from `last_date`, then append the row to the last group. -/
def indexStep (st : List DateGroup × Option String) (r : PhotoRecord) :
    List DateGroup × Option String :=
  if st.2 = some r.date then (appendToLast r st.1, st.2)
  else (appendToLast r (st.1 ++ [⟨r.date, []⟩]), some r.date)

/-- The grouping loop of `index`, run over the rows returned by
`SELECT * FROM photos ORDER BY date DESC, id DESC`. -/
def indexGroups (rows : List PhotoRecord) : List DateGroup :=
  (rows.foldl indexStep ([], none)).1

/-- Dropping a prefix never lengthens a list (termination measure for the
run-based grouping). -/
def length_dropWhile_le (p : PhotoRecord → Bool) :
    ∀ l : List PhotoRecord, (l.dropWhile p).length ≤ l.length
  | [] => Nat.le_refl _
  | a :: as => by
    simp only [List.dropWhile_cons]
    split
    · exact Nat.le_succ_of_le (length_dropWhile_le p as)
    · exact Nat.le_refl _

/-- Run-based reformulation of the loop: each group is the maximal leading run
of rows sharing the first row's date. -/
def groupRuns : List PhotoRecord → List DateGroup
  | [] => []
  | r :: rs =>
    ⟨r.date, r :: rs.takeWhile (fun x => x.date == r.date)⟩ ::
      groupRuns (rs.dropWhile (fun x => x.date == r.date))
termination_by l => l.length
decreasing_by
  simp only [List.length_cons]
  exact Nat.lt_succ_of_le (length_dropWhile_le _ rs)

/-! ## Login endpoints -/

/-- `login_alias` POST branch: the submitted password (missing field read as
`''`) is compared to `ADMIN_PASSWORD`; on match `session['authed'] = True` and
a success flash, otherwise the session is untouched and an error flash is
shown.  Returns (new `authed` flag, whether the flash was the success one). -/
def login_alias (password : Option String) (adminPassword : String) (authed : Bool) :
    Bool × Bool :=
  if password.getD "" = adminPassword then (true, true) else (authed, false)

/-- `admin_login` POST branch: identical logic to `login_alias`. -/
def admin_login (password : Option String) (adminPassword : String) (authed : Bool) :
    Bool × Bool :=
  if password.getD "" = adminPassword then (true, true) else (authed, false)

/-! ## Admin handlers -/

/-- The uploaded file as seen by the handler: its client filename and its byte
stream. -/
structure UpFile where
  filename : String
  stream : Stream
deriving DecidableEq, Repr

/-- The multipart form of the upload request. -/
structure UploadForm where
  file : Option UpFile
  title : Option String
  date : Option String
deriving DecidableEq, Repr

/-- External nondeterminism of one upload/update request: the two `uuid4`
hex strings, whether each of the three I/O calls (two `img.save`, one SQL
`INSERT`) succeeds, zoneinfo availability, the clock dates, and the
`uploaded_at` timestamp string. -/
structure Env where
  webHex : String
  thumbHex : String
  save1Ok : Bool
  save2Ok : Bool
  insertOk : Bool
  zoneAvail : Bool
  tokyoNow : PyDate
  utcNow : PyDate
  uploadedAt : String
deriving DecidableEq, Repr

/-- What the handler answers: a redirect to the login page, an error flash, or
the success flash. -/
inductive ErrKind
  | noFile
  | badExt
  | uploadFailed (e : UploadErr)
deriving DecidableEq, Repr

inductive Outcome
  | redirectLogin
  | flashErr (k : ErrKind)
  | flashOk
deriving DecidableEq, Repr

/-- Pipeline steps of the upload handler, for stating their order:
`validate` is the `_open_validate` call, `name` a `_unique` call, `resize` a
`_save` call, `persist` the SQL `INSERT`. -/
inductive Event
  | validate
  | name
  | resize
  | persist
deriving DecidableEq, Repr

/-- `admin_upload`: authentication gate, field defaulting, file presence and
extension checks, then the `try` block — `_open_validate`, two `_unique`
names, two `_save` calls, one `INSERT` — whose first failure aborts the rest
and flashes the error.  Also returns the sequence of pipeline steps that were
started. -/
def admin_upload (authed : Bool) (form : UploadForm) (env : Env) (w : World) :
    World × Outcome × List Event :=
  if authed = false then (w, Outcome.redirectLogin, []) else
  let title := coalesce form.title "未命名"
  let date_str := coalesce form.date (tokyo_today_str env.zoneAvail env.tokyoNow env.utcNow)
  match form.file with
  | none => (w, Outcome.flashErr ErrKind.noFile, [])
  | some f =>
    if f.filename = "" then (w, Outcome.flashErr ErrKind.noFile, [])
    else if allowed_file f.filename = false then (w, Outcome.flashErr ErrKind.badExt, [])
    else
      match _open_validate f.stream with
      | Except.error e => (w, Outcome.flashErr (ErrKind.uploadFailed e), [Event.validate])
      | Except.ok _ =>
        let web_name := _unique env.webHex ".jpg"
        let thumb_name := _unique env.thumbHex ".jpg"
        if env.save1Ok = false then
          (w, Outcome.flashErr (ErrKind.uploadFailed UploadErr.ioError),
           [Event.validate, Event.name, Event.name, Event.resize])
        else
          let w1 : World := { w with webFiles := w.webFiles ++ [web_name] }
          if env.save2Ok = false then
            (w1, Outcome.flashErr (ErrKind.uploadFailed UploadErr.ioError),
             [Event.validate, Event.name, Event.name, Event.resize, Event.resize])
          else
            let w2 : World := { w1 with thumbFiles := w1.thumbFiles ++ [thumb_name] }
            if env.insertOk = false then
              (w2, Outcome.flashErr (ErrKind.uploadFailed UploadErr.ioError),
               [Event.validate, Event.name, Event.name, Event.resize, Event.resize,
                Event.persist])
            else
              let newRec : PhotoRecord :=
                { id := w2.nextId, filename_web := web_name, filename_thumb := thumb_name,
                  title := title, date := date_str, uploaded_at := env.uploadedAt }
              ({ w2 with db := w2.db ++ [newRec], nextId := w2.nextId + 1 },
               Outcome.flashOk,
               [Event.validate, Event.name, Event.name, Event.resize, Event.resize,
                Event.persist])

/-- `admin_update(pid)`: authentication gate, field defaulting, then
`UPDATE photos SET title=?, date=? WHERE id=?` (touching every row whose id
matches, i.e. at most one) and a success flash. -/
def admin_update (authed : Bool) (pid : Nat) (title? date? : Option String)
    (env : Env) (w : World) : World × Outcome :=
  if authed = false then (w, Outcome.redirectLogin) else
  let title := coalesce title? "未命名"
  let date_str := coalesce date? (tokyo_today_str env.zoneAvail env.tokyoNow env.utcNow)
  ({ w with
      db := w.db.map (fun r =>
        if r.id = pid then { r with title := title, date := date_str } else r) },
   Outcome.flashOk)

/-- `admin_delete(pid)`: authentication gate; look the row up; when present,
`os.remove` each artifact (a missing file raises `FileNotFoundError`, which is
swallowed) and `DELETE FROM photos WHERE id=?`; always flash success. -/
def admin_delete (authed : Bool) (pid : Nat) (w : World) : World × Outcome :=
  if authed = false then (w, Outcome.redirectLogin) else
  match w.db.find? (fun r => r.id == pid) with
  | none => (w, Outcome.flashOk)
  | some row =>
    ({ db := w.db.filter (fun r => !(r.id == pid)),
       webFiles := w.webFiles.filter (fun n => !(n == row.filename_web)),
       thumbFiles := w.thumbFiles.filter (fun n => !(n == row.filename_thumb)),
       nextId := w.nextId },
     Outcome.flashOk)

/-- The record inserted by a successful upload. -/
def uploadedRecord (form : UploadForm) (env : Env) (w : World) : PhotoRecord :=
  { id := w.nextId,
    filename_web := _unique env.webHex ".jpg",
    filename_thumb := _unique env.thumbHex ".jpg",
    title := coalesce form.title "未命名",
    date := coalesce form.date (tokyo_today_str env.zoneAvail env.tokyoNow env.utcNow),
    uploaded_at := env.uploadedAt }

/-! ## Concrete fixtures for witnesses and counterexamples -/

/-- A decodable, structurally sound RGBA stream. -/
def sampleStream : Stream := ⟨some ⟨PMode.RGBA, 4000, 3000⟩, true⟩

/-- A byte stream PIL cannot open at all. -/
def badStream : Stream := ⟨none, true⟩

/-- An upload form carrying a valid `pic.jpg` with a title and no date. -/
def sampleForm : UploadForm := ⟨some ⟨"pic.jpg", sampleStream⟩, some "Trip", none⟩

/-- The same form but with an undecodable stream behind an allowed name. -/
def badForm : UploadForm := ⟨some ⟨"pic.jpg", badStream⟩, some "Trip", none⟩

/-- A request environment where every external call succeeds. -/
def sampleEnv : Env :=
  ⟨"aaaa", "bbbb", true, true, true, true, ⟨2024, 3, 7⟩, ⟨2024, 3, 6⟩, "ts"⟩

/-- A world with one stored photo and id 2 free. -/
def sampleWorld : World :=
  ⟨[⟨1, "a.jpg", "b.jpg", "t", "2024-03-01", "z"⟩], ["a.jpg"], ["b.jpg"], 2⟩

/-- Three rows as `ORDER BY date DESC, id DESC` would return them: two share
the newer date, one has an older date. -/
def recA : PhotoRecord := ⟨5, "a.jpg", "at.jpg", "t1", "2024-03-07", "z"⟩

def recB : PhotoRecord := ⟨3, "b.jpg", "bt.jpg", "t2", "2024-03-07", "z"⟩

def recC : PhotoRecord := ⟨9, "c.jpg", "ct.jpg", "t3", "2024-03-01", "z"⟩

/-! ## Helper lemmas -/

/-- A successful authenticated upload adds exactly the one record and the two
artifact files, and its step trace is
validate, name, name, resize, resize, persist. -/
theorem admin_upload_ok_shape (form : UploadForm) (env : Env) (w : World)
    (h : (admin_upload true form env w).2.1 = Outcome.flashOk) :
    admin_upload true form env w =
      ({ db := w.db ++ [uploadedRecord form env w],
         webFiles := w.webFiles ++ [_unique env.webHex ".jpg"],
         thumbFiles := w.thumbFiles ++ [_unique env.thumbHex ".jpg"],
         nextId := w.nextId + 1 },
       Outcome.flashOk,
       [Event.validate, Event.name, Event.name, Event.resize, Event.resize, Event.persist]) := by
  obtain ⟨file?, t?, d?⟩ := form
  cases file? with
  | none => simp [admin_upload] at h
  | some f =>
    by_cases hfn : f.filename = ""
    · simp [admin_upload, hfn] at h
    · by_cases hext : allowed_file f.filename = false
      · simp [admin_upload, hfn, hext] at h
      · cases hv : _open_validate f.stream with
        | error e => simp [admin_upload, hfn, hext, hv] at h
        | ok img =>
          by_cases h1 : env.save1Ok = false
          · simp [admin_upload, hfn, hext, hv, h1] at h
          · by_cases h2 : env.save2Ok = false
            · simp [admin_upload, hfn, hext, hv, h1, h2] at h
            · by_cases h3 : env.insertOk = false
              · simp [admin_upload, hfn, hext, hv, h1, h2, h3] at h
              · simp [admin_upload, hfn, hext, hv, h1, h2, h3, uploadedRecord]

/-- An upload that does not flash success leaves the `photos` table
unchanged. -/
theorem admin_upload_err_db (authed : Bool) (form : UploadForm) (env : Env) (w : World)
    (h : (admin_upload authed form env w).2.1 ≠ Outcome.flashOk) :
    (admin_upload authed form env w).1.db = w.db := by
  cases authed with
  | false => simp [admin_upload]
  | true =>
    obtain ⟨file?, t?, d?⟩ := form
    cases file? with
    | none => simp [admin_upload]
    | some f =>
      by_cases hfn : f.filename = ""
      · simp [admin_upload, hfn]
      · by_cases hext : allowed_file f.filename = false
        · simp [admin_upload, hfn, hext]
        · cases hv : _open_validate f.stream with
          | error e => simp [admin_upload, hfn, hext, hv]
          | ok img =>
            by_cases h1 : env.save1Ok = false
            · simp [admin_upload, hfn, hext, hv, h1]
            · by_cases h2 : env.save2Ok = false
              · simp [admin_upload, hfn, hext, hv, h1, h2]
              · by_cases h3 : env.insertOk = false
                · simp [admin_upload, hfn, hext, hv, h1, h2, h3]
                · exfalso
                  apply h
                  simp [admin_upload, hfn, hext, hv, h1, h2, h3]

/-- An upload whose stream fails `_open_validate` (while authenticated, with a
file of allowed extension) flashes that error, changes nothing, and its trace
stops at the validation step. -/
theorem admin_upload_invalid_shape (form : UploadForm) (env : Env) (w : World)
    (f : UpFile) (e : UploadErr) (hf : form.file = some f) (hn : f.filename ≠ "")
    (ha : allowed_file f.filename = true) (hv : _open_validate f.stream = Except.error e) :
    admin_upload true form env w =
      (w, Outcome.flashErr (ErrKind.uploadFailed e), [Event.validate]) := by
  obtain ⟨file?, t?, d?⟩ := form
  cases hf
  simp [admin_upload, hn, ha, hv]

/-- `coalesce` never returns the empty string when its default is
non-empty. -/
theorem coalesce_ne_empty (v : Option String) (dflt : String) (h : dflt ≠ "") :
    coalesce v dflt ≠ "" := by
  by_cases hs : strTrim (v.getD "") = ""
  · simp only [coalesce, hs, if_pos]
    exact h
  · simp only [coalesce, if_neg hs]
    exact hs

/-- `date.isoformat()` is never the empty string. -/
theorem isoformat_ne_empty (d : PyDate) : d.isoformat ≠ "" := by
  intro h
  have hlen : (PyDate.isoformat d).length = 0 := by rw [h]; rfl
  unfold PyDate.isoformat at hlen
  simp [String.length_append] at hlen
  exact (by decide : ¬ ("-" : String).length = 0) hlen.1.1.1.2

/-- `tokyo_today_str` is never the empty string. -/
theorem tokyo_today_str_ne_empty (z : Bool) (a b : PyDate) :
    tokyo_today_str z a b ≠ "" :=
  isoformat_ne_empty (if z then a else b)

/-- Appending to the last group of a non-empty list of groups walks past the
head. -/
theorem appendToLast_cons_of_ne_nil (r : PhotoRecord) (g : DateGroup)
    (gs : List DateGroup) (h : gs ≠ []) :
    appendToLast r (g :: gs) = g :: appendToLast r gs := by
  cases gs with
  | nil => exact absurd rfl h
  | cons a as => rfl

/-- `groups[-1]['items'].append(r)` on a list ending in `⟨d, its⟩`. -/
theorem appendToLast_snoc (r : PhotoRecord) (gs : List DateGroup) (d : String)
    (its : List PhotoRecord) :
    appendToLast r (gs ++ [⟨d, its⟩]) = gs ++ [⟨d, its ++ [r]⟩] := by
  induction gs with
  | nil => rfl
  | cons g gs' ih =>
    rw [List.cons_append, appendToLast_cons_of_ne_nil r g _ (by simp), ih, List.cons_append]

/-- The head of what `dropWhile` leaves fails the predicate. -/
theorem dropWhile_head_false (p : PhotoRecord → Bool) :
    ∀ (l : List PhotoRecord) (y : PhotoRecord) (ys : List PhotoRecord),
      l.dropWhile p = y :: ys → p y = false := by
  intro l
  induction l with
  | nil => intro y ys h; simp [List.dropWhile] at h
  | cons a as ih =>
    intro y ys h
    rw [List.dropWhile_cons] at h
    split at h
    · exact ih y ys h
    · rename_i hpa
      cases h
      simpa using hpa

/-- Running the `index` loop from a state whose last group is `⟨d, its⟩` and
whose `last_date` is `d` extends that group with the leading run of rows dated
`d` and then groups the remainder into fresh groups. -/
theorem foldl_indexStep_run :
    ∀ (rows : List PhotoRecord) (gs : List DateGroup) (d : String)
      (its : List PhotoRecord),
      (rows.foldl indexStep (gs ++ [⟨d, its⟩], some d)).1 =
        gs ++ ⟨d, its ++ rows.takeWhile (fun x => x.date == d)⟩ ::
          groupRuns (rows.dropWhile (fun x => x.date == d)) := by
  intro rows
  induction rows with
  | nil =>
    intro gs d its
    simp [groupRuns]
  | cons r rs ih =>
    intro gs d its
    by_cases hd : d = r.date
    · rw [List.foldl_cons]
      have hcond : (gs ++ [(⟨d, its⟩ : DateGroup)], some d).2 = some r.date := by
        simp [hd]
      have hstep : indexStep (gs ++ [⟨d, its⟩], some d) r =
          (gs ++ [⟨d, its ++ [r]⟩], some d) := by
        unfold indexStep
        rw [if_pos hcond, appendToLast_snoc]
      rw [hstep, ih gs d (its ++ [r])]
      have hrd : (r.date == d) = true := beq_iff_eq.mpr hd.symm
      simp [List.takeWhile_cons, List.dropWhile_cons, hrd]
    · rw [List.foldl_cons]
      have hcond : ¬ ((gs ++ [(⟨d, its⟩ : DateGroup)], some d).2 = some r.date) := by
        simp [hd]
      have hstep : indexStep (gs ++ [⟨d, its⟩], some d) r =
          ((gs ++ [⟨d, its⟩]) ++ [⟨r.date, [r]⟩], some r.date) := by
        unfold indexStep
        rw [if_neg hcond, appendToLast_snoc]
        simp
      have ih2 := ih (gs ++ [⟨d, its⟩]) r.date [r]
      rw [hstep, ih2]
      have hrd : (r.date == d) = false := beq_eq_false_iff_ne.mpr (fun he => hd he.symm)
      have htake : List.takeWhile (fun x => x.date == d) (r :: rs) = [] := by
        simp [List.takeWhile_cons, hrd]
      have hdrop : List.dropWhile (fun x => x.date == d) (r :: rs) = r :: rs := by
        simp [List.dropWhile_cons, hrd]
      rw [htake, hdrop, groupRuns]
      simp

/-- The `index` grouping loop computes exactly the run decomposition. -/
theorem indexGroups_eq_groupRuns (rows : List PhotoRecord) :
    indexGroups rows = groupRuns rows := by
  cases rows with
  | nil => simp [indexGroups, groupRuns]
  | cons r rs =>
    unfold indexGroups
    rw [List.foldl_cons]
    have hstep : indexStep ([], none) r = ([] ++ [⟨r.date, [r]⟩], some r.date) := by
      unfold indexStep
      rw [if_neg (by simp)]
      rfl
    rw [hstep, foldl_indexStep_run rs [] r.date [r], groupRuns]
    simp

/-- Concatenating the groups' member lists restores the input rows. -/
theorem groupRuns_join :
    ∀ rows : List PhotoRecord, (groupRuns rows).flatMap DateGroup.items = rows
  | [] => by simp [groupRuns]
  | r :: rs => by
    rw [groupRuns]
    have ih := groupRuns_join (rs.dropWhile (fun x => x.date == r.date))
    rw [List.flatMap_cons, ih]
    simp [List.takeWhile_append_dropWhile]
termination_by rows => rows.length
decreasing_by
  simp only [List.length_cons]
  exact Nat.lt_succ_of_le (length_dropWhile_le _ _)

/-- Every member of a group carries the group's date. -/
theorem groupRuns_dates :
    ∀ rows : List PhotoRecord, ∀ g ∈ groupRuns rows, ∀ r ∈ g.items, r.date = g.date
  | [] => by simp [groupRuns]
  | r :: rs => by
    rw [groupRuns]
    intro g hg x hx
    rcases List.mem_cons.mp hg with rfl | htail
    · rcases List.mem_cons.mp hx with rfl | hrun
      · rfl
      · have hbx0 := List.mem_takeWhile_imp hrun
        have hbx : (x.date == r.date) = true := hbx0
        exact eq_of_beq hbx
    · exact groupRuns_dates (rs.dropWhile (fun x => x.date == r.date)) g htail x hx
termination_by rows => rows.length
decreasing_by
  simp only [List.length_cons]
  exact Nat.lt_succ_of_le (length_dropWhile_le _ _)

/-- A record listed inside any group of `indexGroups rows` is one of the
input rows. -/
theorem indexGroups_mem (rows : List PhotoRecord) (g : DateGroup) (r : PhotoRecord)
    (hg : g ∈ indexGroups rows) (hr : r ∈ g.items) : r ∈ rows := by
  rw [indexGroups_eq_groupRuns] at hg
  have := groupRuns_join rows
  rw [← this]
  exact List.mem_flatMap.mpr ⟨g, hg, hr⟩

/-- `sortedRows` is the chain of `rowOrder` over consecutive rows. -/
theorem sortedRows_iff_chain :
    ∀ l : List PhotoRecord, sortedRows l ↔ List.Chain' rowOrder l
  | [] => by simp [sortedRows]
  | [a] => by simp [sortedRows]
  | a :: b :: rs => by
    rw [show sortedRows (a :: b :: rs) = (rowOrder a b ∧ sortedRows (b :: rs)) from rfl,
      List.chain'_cons, sortedRows_iff_chain (b :: rs)]

/-- On an input sorted so that equal dates are adjacent, the run keys strictly
decrease. -/
theorem groupRuns_keys_desc :
    ∀ rows : List PhotoRecord, List.Chain' rowOrder rows →
      List.Chain' (fun a b : String => textLtb b a = true)
        ((groupRuns rows).map DateGroup.date)
  | [] => by intro _; simp [groupRuns]
  | r :: rs => by
    intro hchain
    rw [groupRuns]
    simp only [List.map_cons]
    have hsplit : r :: rs = (r :: rs.takeWhile (fun x => x.date == r.date)) ++
        rs.dropWhile (fun x => x.date == r.date) := by
      simp [List.takeWhile_append_dropWhile]
    have happ := List.chain'_append.mp (hsplit ▸ hchain)
    rw [List.chain'_cons']
    constructor
    · intro b hb
      cases hdl : rs.dropWhile (fun x => x.date == r.date) with
      | nil => rw [hdl] at hb; simp [groupRuns] at hb
      | cons y ys =>
        rw [hdl] at hb
        rw [groupRuns] at hb
        simp only [List.map_cons, List.head?_cons, Option.mem_def, Option.some.injEq] at hb
        subst hb
        have hylast : ∀ x ∈ (r :: rs.takeWhile (fun x => x.date == r.date)).getLast?,
            ∀ z ∈ (rs.dropWhile (fun x => x.date == r.date)).head?, rowOrder x z :=
          happ.2.2
        have hlast_mem : (r :: rs.takeWhile (fun x => x.date == r.date)).getLast
            (by simp) ∈ r :: rs.takeWhile (fun x => x.date == r.date) :=
          List.getLast_mem _
        have hlast_date :
            ((r :: rs.takeWhile (fun x => x.date == r.date)).getLast (by simp)).date =
              r.date := by
          rcases List.mem_cons.mp hlast_mem with heq | hrun
          · rw [heq]
          · have hbx0 := List.mem_takeWhile_imp hrun
            have hbx : (((r :: rs.takeWhile (fun x => x.date == r.date)).getLast
                (by simp)).date == r.date) = true := hbx0
            exact eq_of_beq hbx
        have hord : rowOrder
            ((r :: rs.takeWhile (fun x => x.date == r.date)).getLast (by simp)) y := by
          apply hylast
          · exact Option.mem_def.mpr (List.getLast?_eq_getLast _ _)
          · exact Option.mem_def.mpr (by rw [hdl]; rfl)
        have hyfail : (fun x => x.date == r.date) y = false :=
          dropWhile_head_false _ rs y ys hdl
        have hyne : y.date ≠ r.date := by simpa using hyfail
        rcases hord with hlt | ⟨heq, _⟩
        · rwa [hlast_date] at hlt
        · rw [hlast_date] at heq; exact absurd heq hyne
    · have hdropchain : List.Chain' rowOrder
          (rs.dropWhile (fun x => x.date == r.date)) := happ.2.1
      exact groupRuns_keys_desc (rs.dropWhile (fun x => x.date == r.date)) hdropchain
termination_by rows => rows.length
decreasing_by
  simp only [List.length_cons]
  exact Nat.lt_succ_of_le (length_dropWhile_le _ _)

/-! ## Theorems -/

/-- C7: an authenticated delete or update whose id is absent from the `photos`
table is a benign no-op: the success flash is shown (no error), the table and
the artifact directories are untouched. -/
theorem missing_id_noop (pid : Nat) (w : World) (t? d? : Option String) (env : Env)
    (h : ∀ r ∈ w.db, r.id ≠ pid) :
    admin_delete true pid w = (w, Outcome.flashOk) ∧
    admin_update true pid t? d? env w = (w, Outcome.flashOk) := by
  constructor
  · unfold admin_delete
    have hf : w.db.find? (fun r => r.id == pid) = none := by
      rw [List.find?_eq_none]
      intro r hr
      simpa using h r hr
    simp [hf]
  · unfold admin_update
    have hm : w.db.map (fun r =>
        if r.id = pid then
          { r with title := coalesce t? "未命名",
                   date := coalesce d? (tokyo_today_str env.zoneAvail env.tokyoNow env.utcNow) }
        else r) = w.db := by
      have hcong : ∀ r ∈ w.db,
          (if r.id = pid then
            { r with title := coalesce t? "未命名",
                     date := coalesce d? (tokyo_today_str env.zoneAvail env.tokyoNow env.utcNow) }
          else r) = r := by
        intro r hr
        simp [h r hr]
      rw [List.map_congr_left hcong]
      simp
    simp [hm]

/-- Witness for C7 at a concrete world holding one record with id 1 and a
request for id 2. -/
theorem missing_id_noop_witness :
    (∀ r ∈ ({ db := [⟨1, "a.jpg", "b.jpg", "t", "2024-03-07", "z"⟩],
              webFiles := ["a.jpg"], thumbFiles := ["b.jpg"], nextId := 2 } : World).db,
        r.id ≠ 2) ∧
    admin_delete true 2
        { db := [⟨1, "a.jpg", "b.jpg", "t", "2024-03-07", "z"⟩],
          webFiles := ["a.jpg"], thumbFiles := ["b.jpg"], nextId := 2 } =
      ({ db := [⟨1, "a.jpg", "b.jpg", "t", "2024-03-07", "z"⟩],
         webFiles := ["a.jpg"], thumbFiles := ["b.jpg"], nextId := 2 }, Outcome.flashOk) :=
  ⟨by decide,
   (missing_id_noop 2
      { db := [⟨1, "a.jpg", "b.jpg", "t", "2024-03-07", "z"⟩],
        webFiles := ["a.jpg"], thumbFiles := ["b.jpg"], nextId := 2 }
      none none
      ⟨"h1", "h2", true, true, true, true, ⟨2024, 3, 7⟩, ⟨2024, 3, 6⟩, "ts"⟩
      (by decide)).1⟩

/-- C9: a POST to either login endpoint marks the session authenticated
exactly when the submitted password field (a missing field read as the empty
string) equals the configured admin password; on a mismatch the session flag
is left as it was; with an empty configured password, a POST without the
field authenticates. -/
theorem login_spec :
    (∀ (pw : Option String) (admin : String),
        (login_alias pw admin false).1 = true ↔ pw.getD "" = admin) ∧
    (∀ (pw : Option String) (admin : String),
        (admin_login pw admin false).1 = true ↔ pw.getD "" = admin) ∧
    (∀ (pw : Option String) (admin : String) (s : Bool), pw.getD "" = admin →
        login_alias pw admin s = (true, true) ∧ admin_login pw admin s = (true, true)) ∧
    (∀ (pw : Option String) (admin : String) (s : Bool), pw.getD "" ≠ admin →
        login_alias pw admin s = (s, false) ∧ admin_login pw admin s = (s, false)) ∧
    (∀ s : Bool, (login_alias none "" s).1 = true ∧ (admin_login none "" s).1 = true) := by
  refine ⟨?_, ?_, ?_, ?_, ?_⟩
  · intro pw admin; unfold login_alias; split <;> simp_all
  · intro pw admin; unfold admin_login; split <;> simp_all
  · intro pw admin s heq; unfold login_alias admin_login; simp [heq]
  · intro pw admin s hne; unfold login_alias admin_login; simp [hne]
  · intro s; unfold login_alias admin_login; simp

/-- Witness for C9: the right password marks the session, the wrong one
leaves an unauthenticated session unauthenticated. -/
theorem login_spec_witness :
    ((some "123456" : Option String).getD "" = "123456") ∧
    login_alias (some "123456") "123456" false = (true, true) ∧
    ((some "nope" : Option String).getD "" ≠ "123456") ∧
    login_alias (some "nope") "123456" false = (false, false) :=
  ⟨rfl,
   (login_spec.2.2.1 (some "123456") "123456" false rfl).1,
   by decide,
   (login_spec.2.2.2.1 (some "nope") "123456" false (by decide)).1⟩

/-- C3: an authenticated upload of an allowed-extension file whose bytes do
not decode as a valid image flashes the invalid-image error and leaves the
world untouched — no record, no artifact file; and in general any upload that
does not flash success leaves the `photos` table without a new row. -/
theorem upload_failure_atomic :
    (∀ (form : UploadForm) (env : Env) (w : World) (f : UpFile),
        form.file = some f → f.filename ≠ "" → allowed_file f.filename = true →
        (f.stream.openImg = none ∨ f.stream.verifyOk = false) →
        admin_upload true form env w =
          (w, Outcome.flashErr (ErrKind.uploadFailed UploadErr.invalidImage),
           [Event.validate])) ∧
    (∀ (authed : Bool) (form : UploadForm) (env : Env) (w : World),
        (admin_upload authed form env w).2.1 ≠ Outcome.flashOk →
        (admin_upload authed form env w).1.db = w.db) := by
  constructor
  · intro form env w f hf hn ha hbad
    have hv : _open_validate f.stream = Except.error UploadErr.invalidImage := by
      rcases hbad with h | h
      · simp [_open_validate, h]
      · cases hoi : f.stream.openImg with
        | none => simp [_open_validate, hoi]
        | some img => simp [_open_validate, hoi, h]
    exact admin_upload_invalid_shape form env w f _ hf hn ha hv
  · exact admin_upload_err_db

/-- Witness for C3: uploading an undecodable stream named `pic.jpg` into the
sample world changes nothing and flashes the invalid-image error. -/
theorem upload_failure_atomic_witness :
    badForm.file = some ⟨"pic.jpg", badStream⟩ ∧
    ("pic.jpg" : String) ≠ "" ∧
    allowed_file "pic.jpg" = true ∧
    (badStream.openImg = none ∨ badStream.verifyOk = false) ∧
    admin_upload true badForm sampleEnv sampleWorld =
      (sampleWorld, Outcome.flashErr (ErrKind.uploadFailed UploadErr.invalidImage),
       [Event.validate]) :=
  ⟨rfl, by decide, by decide, Or.inl rfl,
   upload_failure_atomic.1 badForm sampleEnv sampleWorld ⟨"pic.jpg", badStream⟩
     rfl (by decide) (by decide) (Or.inl rfl)⟩

/-- C4 counterexample: on a concrete successful upload the handler generates
the unique names *before* the `_save` resize calls, so the claimed
resize-before-name order is false: both naming steps precede both resize
steps in the trace. -/
theorem upload_pipeline_order_counterexample :
    (admin_upload true sampleForm sampleEnv sampleWorld).2.1 = Outcome.flashOk ∧
    Event.resize ∈ (admin_upload true sampleForm sampleEnv sampleWorld).2.2 ∧
    Event.name ∈ (admin_upload true sampleForm sampleEnv sampleWorld).2.2 ∧
    ¬ ((admin_upload true sampleForm sampleEnv sampleWorld).2.2.indexOf Event.resize <
       (admin_upload true sampleForm sampleEnv sampleWorld).2.2.indexOf Event.name) := by
  decide

/-- C4 (amended): every successful upload performs validate, then the two
name generations, then the two resize/encode calls, then the insert — in that
order. -/
theorem upload_pipeline_order (form : UploadForm) (env : Env) (w : World)
    (h : (admin_upload true form env w).2.1 = Outcome.flashOk) :
    (admin_upload true form env w).2.2 =
      [Event.validate, Event.name, Event.name, Event.resize, Event.resize, Event.persist] ∧
    ((admin_upload true form env w).2.2.indexOf Event.validate <
      (admin_upload true form env w).2.2.indexOf Event.name) ∧
    ((admin_upload true form env w).2.2.indexOf Event.name <
      (admin_upload true form env w).2.2.indexOf Event.resize) ∧
    ((admin_upload true form env w).2.2.indexOf Event.resize <
      (admin_upload true form env w).2.2.indexOf Event.persist) := by
  have ht : (admin_upload true form env w).2.2 =
      [Event.validate, Event.name, Event.name, Event.resize, Event.resize, Event.persist] := by
    rw [admin_upload_ok_shape form env w h]
  rw [ht]
  exact ⟨rfl, by decide, by decide, by decide⟩

/-- Witness for C4 (amended) on the concrete successful sample upload. -/
theorem upload_pipeline_order_witness :
    (admin_upload true sampleForm sampleEnv sampleWorld).2.1 = Outcome.flashOk ∧
    (admin_upload true sampleForm sampleEnv sampleWorld).2.2 =
      [Event.validate, Event.name, Event.name, Event.resize, Event.resize, Event.persist] :=
  ⟨by decide, (upload_pipeline_order sampleForm sampleEnv sampleWorld (by decide)).1⟩

/-- C5 counterexample: a supplied title `" A "` and date `" 2024-01-02 "` are
non-blank, yet the edit stores `"A"` and `"2024-01-02"` — the stripped
values, not the verbatim ones. -/
theorem defaulting_verbatim_counterexample :
    strTrim " A " ≠ "" ∧ strTrim " 2024-01-02 " ≠ "" ∧
    (admin_update true 1 (some " A ") (some " 2024-01-02 ") sampleEnv sampleWorld).1.db =
      [⟨1, "a.jpg", "b.jpg", "A", "2024-01-02", "z"⟩] ∧
    (∀ r ∈ (admin_update true 1 (some " A ") (some " 2024-01-02 ") sampleEnv
        sampleWorld).1.db, r.title ≠ " A " ∧ r.date ≠ " 2024-01-02 ") := by
  decide

/-- C5 (amended): for both upload and edit, a supplied title or date that is
non-blank after stripping surrounding whitespace is stored stripped (hence
verbatim when it has none), with no re-validation of the date format; a blank
or missing title becomes the placeholder, a blank or missing date becomes
today in `Asia/Tokyo`, or today in UTC when zoneinfo is unavailable. -/
theorem defaulting_policy :
    (∀ (pid : Nat) (t? d? : Option String) (env : Env) (w : World),
        (admin_update true pid t? d? env w).1.db = w.db.map (fun r =>
          if r.id = pid then
            { r with
                title := if strTrim (t?.getD "") = "" then "未命名"
                  else strTrim (t?.getD ""),
                date := if strTrim (d?.getD "") = "" then
                    (if env.zoneAvail then env.tokyoNow else env.utcNow).isoformat
                  else strTrim (d?.getD "") }
          else r)) ∧
    (∀ (form : UploadForm) (env : Env) (w : World),
        (admin_upload true form env w).2.1 = Outcome.flashOk →
        ∃ r : PhotoRecord,
          (admin_upload true form env w).1.db = w.db ++ [r] ∧
          r.title = (if strTrim (form.title.getD "") = "" then "未命名"
            else strTrim (form.title.getD "")) ∧
          r.date = (if strTrim (form.date.getD "") = "" then
              (if env.zoneAvail then env.tokyoNow else env.utcNow).isoformat
            else strTrim (form.date.getD ""))) ∧
    (∀ v dflt : String, strTrim v = v → v ≠ "" → coalesce (some v) dflt = v) := by
  refine ⟨?_, ?_, ?_⟩
  · intro pid t? d? env w
    simp [admin_update, coalesce, tokyo_today_str]
  · intro form env w h
    refine ⟨uploadedRecord form env w, ?_, ?_, ?_⟩
    · rw [admin_upload_ok_shape form env w h]
    · simp [uploadedRecord, coalesce]
    · simp [uploadedRecord, coalesce, tokyo_today_str]
  · intro v dflt htrim hne
    simp [coalesce, htrim, hne]

/-- Witness for C5 (amended): a blank title and missing date on an edit
become the placeholder and today's Tokyo date. -/
theorem defaulting_policy_witness :
    (admin_update true 1 (some "  ") none sampleEnv sampleWorld).1.db =
      [⟨1, "a.jpg", "b.jpg", "未命名", "2024-03-07", "z"⟩] ∧
    strTrim "Trip" = "Trip" ∧ ("Trip" : String) ≠ "" ∧
    coalesce (some "Trip") "未命名" = "Trip" := by
  refine ⟨?_, by decide, by decide, defaulting_policy.2.2 "Trip" "未命名" (by decide) (by decide)⟩
  have h := defaulting_policy.1 1 (some "  ") none sampleEnv sampleWorld
  rw [h]
  decide

/-- C10: starting from a table whose rows all have a non-blank title and a
non-blank date, any upload and any update preserve that invariant: both
handlers coalesce blank or missing fields to the placeholder or to today's
date before writing. -/
theorem records_nonblank (w : World)
    (hw : ∀ r ∈ w.db, r.title ≠ "" ∧ r.date ≠ "") :
    (∀ (authed : Bool) (form : UploadForm) (env : Env),
        ∀ r ∈ (admin_upload authed form env w).1.db, r.title ≠ "" ∧ r.date ≠ "") ∧
    (∀ (authed : Bool) (pid : Nat) (t? d? : Option String) (env : Env),
        ∀ r ∈ (admin_update authed pid t? d? env w).1.db, r.title ≠ "" ∧ r.date ≠ "") := by
  constructor
  · intro authed form env
    by_cases hok : (admin_upload authed form env w).2.1 = Outcome.flashOk
    · cases authed with
      | false => simp [admin_upload] at hok
      | true =>
        rw [admin_upload_ok_shape form env w hok]
        intro r hr
        rcases List.mem_append.mp hr with hold | hnew
        · exact hw r hold
        · rcases List.mem_singleton.mp hnew with rfl
          refine ⟨coalesce_ne_empty _ _ (by decide), coalesce_ne_empty _ _ ?_⟩
          exact tokyo_today_str_ne_empty env.zoneAvail env.tokyoNow env.utcNow
    · rw [admin_upload_err_db authed form env w hok]
      exact hw
  · intro authed pid t? d? env
    cases authed with
    | false =>
      intro r hr
      simp only [admin_update] at hr
      exact hw r hr
    | true =>
      intro r hr
      simp only [admin_update] at hr
      rcases List.mem_map.mp hr with ⟨a, ha, rfl⟩
      split
      · refine ⟨coalesce_ne_empty _ _ (by decide), coalesce_ne_empty _ _ ?_⟩
        exact tokyo_today_str_ne_empty env.zoneAvail env.tokyoNow env.utcNow
      · exact hw a ha

/-- Witness for C10 on the sample world, one upload and one blank-field
update. -/
theorem records_nonblank_witness :
    (∀ r ∈ sampleWorld.db, r.title ≠ "" ∧ r.date ≠ "") ∧
    (∀ r ∈ (admin_upload true sampleForm sampleEnv sampleWorld).1.db,
        r.title ≠ "" ∧ r.date ≠ "") ∧
    (∀ r ∈ (admin_update true 1 (some "  ") none sampleEnv sampleWorld).1.db,
        r.title ≠ "" ∧ r.date ≠ "") :=
  ⟨by decide,
   (records_nonblank sampleWorld (by decide)).1 true sampleForm sampleEnv,
   (records_nonblank sampleWorld (by decide)).2 true 1 (some "  ") none sampleEnv⟩

/-- C2: on rows ordered by date descending then id descending, the `index`
grouping loop partitions them into groups whose concatenation restores the
input in order, whose members each carry the group's date, and whose keys
strictly decrease in the SQLite text order. -/
theorem index_grouping (rows : List PhotoRecord) (hs : sortedRows rows) :
    ((indexGroups rows).flatMap DateGroup.items = rows) ∧
    (∀ g ∈ indexGroups rows, ∀ r ∈ g.items, r.date = g.date) ∧
    List.Chain' (fun a b : String => textLtb b a = true)
      ((indexGroups rows).map DateGroup.date) := by
  have hchain := (sortedRows_iff_chain rows).mp hs
  rw [indexGroups_eq_groupRuns]
  exact ⟨groupRuns_join rows, groupRuns_dates rows, groupRuns_keys_desc rows hchain⟩

/-- Witness for C2 on three concrete rows, two sharing the newer date. -/
theorem index_grouping_witness :
    sortedRows [recA, recB, recC] ∧
    (indexGroups [recA, recB, recC]).flatMap DateGroup.items = [recA, recB, recC] :=
  ⟨by decide, (index_grouping [recA, recB, recC] (by decide)).1⟩

/-- C6: an authenticated delete of an id present in the table flashes
success, removes both of the record's artifact files (removal is tolerant:
stated via filtering, so an already-absent file is not an error), removes
every row with that id, and the id appears in no group of any subsequent
listing of the remaining rows. -/
theorem delete_existing (pid : Nat) (w : World) (row : PhotoRecord)
    (hfind : w.db.find? (fun r => r.id == pid) = some row) :
    (admin_delete true pid w).2 = Outcome.flashOk ∧
    (admin_delete true pid w).1.db = w.db.filter (fun r => !(r.id == pid)) ∧
    (∀ r ∈ (admin_delete true pid w).1.db, r.id ≠ pid) ∧
    (admin_delete true pid w).1.webFiles =
      w.webFiles.filter (fun n => !(n == row.filename_web)) ∧
    (admin_delete true pid w).1.thumbFiles =
      w.thumbFiles.filter (fun n => !(n == row.filename_thumb)) ∧
    row.filename_web ∉ (admin_delete true pid w).1.webFiles ∧
    row.filename_thumb ∉ (admin_delete true pid w).1.thumbFiles ∧
    (∀ rows' : List PhotoRecord, List.Perm rows' (admin_delete true pid w).1.db →
        ∀ g ∈ indexGroups rows', ∀ r ∈ g.items, r.id ≠ pid) := by
  have hres : admin_delete true pid w =
      ({ db := w.db.filter (fun r => !(r.id == pid)),
         webFiles := w.webFiles.filter (fun n => !(n == row.filename_web)),
         thumbFiles := w.thumbFiles.filter (fun n => !(n == row.filename_thumb)),
         nextId := w.nextId }, Outcome.flashOk) := by
    simp [admin_delete, hfind]
  rw [hres]
  refine ⟨rfl, rfl, ?_, rfl, rfl, ?_, ?_, ?_⟩
  · intro r hr
    have hf := (List.mem_filter.mp hr).2
    simpa using hf
  · intro hmem
    have hf := (List.mem_filter.mp hmem).2
    simp at hf
  · intro hmem
    have hf := (List.mem_filter.mp hmem).2
    simp at hf
  · intro rows' hperm g hg x hx
    have hx' : x ∈ rows' := indexGroups_mem rows' g x hg hx
    have hxf : x ∈ w.db.filter (fun r => !(r.id == pid)) := hperm.mem_iff.mp hx'
    have hf := (List.mem_filter.mp hxf).2
    simpa using hf

/-- Witness for C6: deleting id 1 from the sample world empties its table and
removes its two files. -/
theorem delete_existing_witness :
    (sampleWorld.db.find? (fun r => r.id == 1) =
      some ⟨1, "a.jpg", "b.jpg", "t", "2024-03-01", "z"⟩) ∧
    (∀ r ∈ (admin_delete true 1 sampleWorld).1.db, r.id ≠ 1) ∧
    ("a.jpg" : String) ∉ (admin_delete true 1 sampleWorld).1.webFiles ∧
    ("b.jpg" : String) ∉ (admin_delete true 1 sampleWorld).1.thumbFiles :=
  ⟨rfl,
   (delete_existing 1 sampleWorld ⟨1, "a.jpg", "b.jpg", "t", "2024-03-01", "z"⟩ rfl).2.2.1,
   (delete_existing 1 sampleWorld ⟨1, "a.jpg", "b.jpg", "t", "2024-03-01", "z"⟩
      rfl).2.2.2.2.2.1,
   (delete_existing 1 sampleWorld ⟨1, "a.jpg", "b.jpg", "t", "2024-03-01", "z"⟩
      rfl).2.2.2.2.2.2.1⟩

/-- C8: `_open_validate` fails, with the invalid-image error specifically,
exactly when PIL cannot open the stream or `verify()` finds it corrupt; on
success it returns the image converted to the canonical 3-channel RGB mode
(whatever the source mode — palette, grayscale, alpha) with its size kept;
and an upload whose filename extension is not allowed is rejected with the
extension error before any decode attempt (empty step trace). -/
theorem validator_spec :
    (∀ s : Stream,
        _open_validate s = Except.error UploadErr.invalidImage ↔
          (s.openImg = none ∨ s.verifyOk = false)) ∧
    (∀ (s : Stream) (img : PILImage), _open_validate s = Except.ok img →
        img.mode = PMode.RGB) ∧
    (∀ (s : Stream) (img : PILImage), s.openImg = some img → s.verifyOk = true →
        _open_validate s = Except.ok (convertRGB img) ∧
        (convertRGB img).mode = PMode.RGB ∧
        (convertRGB img).width = img.width ∧ (convertRGB img).height = img.height) ∧
    (∀ (form : UploadForm) (env : Env) (w : World) (f : UpFile),
        form.file = some f → f.filename ≠ "" → allowed_file f.filename = false →
        admin_upload true form env w = (w, Outcome.flashErr ErrKind.badExt, [])) := by
  refine ⟨?_, ?_, ?_, ?_⟩
  · intro s
    obtain ⟨oi, vo⟩ := s
    cases oi <;> cases vo <;> simp [_open_validate]
  · intro s img h
    obtain ⟨oi, vo⟩ := s
    cases oi with
    | none => simp [_open_validate] at h
    | some i =>
      cases vo with
      | false => simp [_open_validate] at h
      | true =>
        simp [_open_validate] at h
        rw [← h]
        rfl
  · intro s img h1 h2
    exact ⟨by simp [_open_validate, h1, h2], rfl, rfl, rfl⟩
  · intro form env w f hf hn hext
    obtain ⟨file?, t?, d?⟩ := form
    cases hf
    simp [admin_upload, hn, hext]

/-- Witness for C8: a sound RGBA stream is converted to RGB at full size; a
`.txt` upload is rejected with no validation step run. -/
theorem validator_spec_witness :
    sampleStream.openImg = some ⟨PMode.RGBA, 4000, 3000⟩ ∧
    sampleStream.verifyOk = true ∧
    _open_validate sampleStream = Except.ok ⟨PMode.RGB, 4000, 3000⟩ ∧
    ("notes.txt" : String) ≠ "" ∧
    allowed_file "notes.txt" = false ∧
    admin_upload true ⟨some ⟨"notes.txt", sampleStream⟩, none, none⟩ sampleEnv sampleWorld =
      (sampleWorld, Outcome.flashErr ErrKind.badExt, []) :=
  ⟨rfl, rfl,
   (validator_spec.2.2.1 sampleStream ⟨PMode.RGBA, 4000, 3000⟩ rfl rfl).1,
   by decide, by decide,
   validator_spec.2.2.2 ⟨some ⟨"notes.txt", sampleStream⟩, none, none⟩ sampleEnv
     sampleWorld ⟨"notes.txt", sampleStream⟩ rfl (by decide) (by decide)⟩

/-- C1: for a positive-size image, `_save` produces exactly the floor of the
original dimensions times `scale = min(max_side / max(w, h), 1.0)`; the
output's longest edge is at most `max_side` and at most the original longest
edge (no upscaling), and an image already within `max_side` keeps its
dimensions. -/
theorem save_dims_spec (w h m : Nat) (hw : 0 < w) (hh : 0 < h) :
    saveDims w h m =
      ((Int.floor ((w : ℚ) * saveScale w h m)).toNat,
       (Int.floor ((h : ℚ) * saveScale w h m)).toNat) ∧
    max (saveDims w h m).1 (saveDims w h m).2 ≤ m ∧
    max (saveDims w h m).1 (saveDims w h m).2 ≤ max w h ∧
    (max w h ≤ m → saveDims w h m = (w, h)) := by
  have hM : 0 < max w h := lt_of_lt_of_le hw (Nat.le_max_left w h)
  have hMQ : (0 : ℚ) < ((max w h : Nat) : ℚ) := by exact_mod_cast hM
  by_cases hcase : m < max w h
  · have hdiv_lt : ((m : ℚ) / ((max w h : Nat) : ℚ)) < 1 := by
      rw [div_lt_one hMQ]
      exact_mod_cast hcase
    have hscale_eq : saveScale w h m = (m : ℚ) / ((max w h : Nat) : ℚ) :=
      min_eq_left (le_of_lt hdiv_lt)
    have hscale_lt : saveScale w h m < 1 := by rw [hscale_eq]; exact hdiv_lt
    have hscale_nn : (0 : ℚ) ≤ saveScale w h m := by
      rw [hscale_eq]; positivity
    have hdims : saveDims w h m =
        ((Int.floor ((w : ℚ) * saveScale w h m)).toNat,
         (Int.floor ((h : ℚ) * saveScale w h m)).toNat) := by
      unfold saveDims
      rw [if_pos hscale_lt]
    have hbound : ∀ x : Nat, x ≤ max w h →
        (Int.floor ((x : ℚ) * saveScale w h m)).toNat ≤ m := by
      intro x hx
      have hxQ : (x : ℚ) ≤ ((max w h : Nat) : ℚ) := by exact_mod_cast hx
      have h1 : (x : ℚ) * saveScale w h m ≤
          ((max w h : Nat) : ℚ) * ((m : ℚ) / ((max w h : Nat) : ℚ)) := by
        rw [hscale_eq]
        exact mul_le_mul_of_nonneg_right hxQ (by positivity)
      have h2 : ((max w h : Nat) : ℚ) * ((m : ℚ) / ((max w h : Nat) : ℚ)) = (m : ℚ) := by
        field_simp
      have h3 : (x : ℚ) * saveScale w h m ≤ (m : ℚ) := h1.trans (le_of_eq h2)
      have h4 : Int.floor ((x : ℚ) * saveScale w h m) ≤ (m : ℤ) := by
        have hf := Int.floor_le_floor h3
        rwa [Int.floor_natCast] at hf
      exact Int.toNat_le.mpr h4
    have hshrink : ∀ x : Nat, (Int.floor ((x : ℚ) * saveScale w h m)).toNat ≤ x := by
      intro x
      have h1 : (x : ℚ) * saveScale w h m ≤ (x : ℚ) * 1 :=
        mul_le_mul_of_nonneg_left (le_of_lt hscale_lt) (by positivity)
      rw [mul_one] at h1
      have h4 : Int.floor ((x : ℚ) * saveScale w h m) ≤ (x : ℤ) := by
        have hf := Int.floor_le_floor h1
        rwa [Int.floor_natCast] at hf
      exact Int.toNat_le.mpr h4
    refine ⟨hdims, ?_, ?_, ?_⟩
    · rw [hdims]
      exact max_le (hbound w (Nat.le_max_left w h)) (hbound h (Nat.le_max_right w h))
    · rw [hdims]
      exact max_le ((hshrink w).trans (Nat.le_max_left w h))
        ((hshrink h).trans (Nat.le_max_right w h))
    · intro hmle
      exact absurd hmle (by omega)
  · have hMle : max w h ≤ m := Nat.le_of_not_lt hcase
    have hone_le : (1 : ℚ) ≤ (m : ℚ) / ((max w h : Nat) : ℚ) := by
      rw [one_le_div hMQ]
      exact_mod_cast hMle
    have hscale_eq : saveScale w h m = 1 := min_eq_right hone_le
    have hnotlt : ¬ saveScale w h m < 1 := by rw [hscale_eq]; exact lt_irrefl 1
    have hdims : saveDims w h m = (w, h) := by
      unfold saveDims
      rw [if_neg hnotlt]
    refine ⟨?_, ?_, ?_, fun _ => hdims⟩
    · rw [hdims, hscale_eq]
      simp
    · rw [hdims]
      exact hMle
    · rw [hdims]

/-- Witness for C1 at a 4000×3000 image bounded by 2000: longest output edge
is at most 2000. -/
theorem save_dims_spec_witness :
    (0 < 4000) ∧ (0 < 3000) ∧
    max (saveDims 4000 3000 2000).1 (saveDims 4000 3000 2000).2 ≤ 2000 :=
  ⟨by decide, by decide,
   (save_dims_spec 4000 3000 2000 (by decide) (by decide)).2.1⟩

end Tu
